import Mathlib

/-!
Verification development for the Muzloto form scanner
(`src/core/muzloto_scanner.cpp`).

The C++ code works on `std::string`, i.e. byte strings holding UTF-8 text.
We model a `std::string` as a Lean `String` (a list of Unicode characters).
This is faithful because:
* UTF-8 is self-synchronizing, so byte-level substring search
  (`std::string::find`) of a valid UTF-8 needle in valid UTF-8 text succeeds
  exactly at character boundaries — it coincides with character-level search;
* byte-wise `std::tolower` (C locale) maps only the ASCII bytes `A`–`Z`;
  every byte of a multi-byte UTF-8 character is ≥ 0x80 and is left unchanged,
  so byte-wise `tolower` coincides with character-wise ASCII lowering;
* byte-wise `std::isdigit` accepts only ASCII digits, and every byte of a
  multi-byte character is rejected, so byte-wise filtering of digits and `'+'`
  coincides with character-wise filtering.
The one place where the byte/character distinction is observable —
`substr(0, 500)` on the raw text in the C interface — is modelled explicitly
at the byte level (`strBytes`, `cppSubstr`).
-/

namespace Muzloto

/-- `leadsWith pat l`: `pat` occurs at the very start of `l`
(the anchored step of `std::string::find`). -/
def leadsWith : List Char → List Char → Bool
  | [], _ => true
  | _ :: _, [] => false
  | p :: ps, c :: cs => p == c && leadsWith ps cs

/-- `hasSub hay pat`: `pat` occurs somewhere in `hay`, i.e.
`hay.find(pat) != std::string::npos`. -/
def hasSub (hay pat : List Char) : Bool :=
  match hay with
  | [] => pat.isEmpty
  | _ :: t => leadsWith pat hay || hasSub t pat

/-- Byte-wise `std::tolower` in the C locale: only ASCII `A`–`Z` move. -/
def asciiLower (c : Char) : Char :=
  if 'A' ≤ c && c ≤ 'Z' then Char.ofNat (c.toNat + 32) else c

/-- The `std::transform(..., ::tolower)` loop of the scanner. -/
def lowerOf (t : String) : List Char := t.data.map asciiLower

/-- ASCII `std::isdigit`. -/
def isAsciiDigit (c : Char) : Bool := '0' ≤ c && c ≤ '9'

/-! ### `MuzlotoScanner::extract_rating`

```cpp
std::regex rating_regex(R"((10|[1-9]))");
if (std::regex_search(text, match, rating_regex)) return match.str();
return text;
```
`regex_search` returns the leftmost match; at a given position the
alternative `10` is tried before `[1-9]`. -/

/-- The leftmost match of `(10|[1-9])`: scan positions left to right; at each
position try `10` first, then a single digit `1`–`9`. -/
def ratingSearch : List Char → Option (List Char)
  | [] => none
  | c :: rest =>
    if c == '1' && rest.head? == some '0' then some ['1', '0']
    else if '1' ≤ c && c ≤ '9' then some [c]
    else ratingSearch rest

def extract_rating (text : String) : String :=
  if text.data = [] then ""
  else
    match ratingSearch text.data with
    | some m => String.mk m
    | none => text

/-! ### `MuzlotoScanner::extract_ticket_price` -/

/-- The first `if` of `extract_ticket_price`. -/
def tpDearCond (lower : List Char) : Bool :=
  hasSub lower ("можно смело ставить дороже").data || hasSub lower ("дороже").data

def extract_ticket_price (text : String) : String :=
  if text.data = [] then ""
  else
    let lower := lowerOf text
    if tpDearCond lower then "можно смело ставить дороже"
    else if hasSub lower ("доступно").data then "доступно"
    else if hasSub lower ("дорого").data then "дорого"
    else text

/-! ### `MuzlotoScanner::extract_yes_no` -/

/-- The yes-branch condition of `extract_yes_no`: the fixed token set. -/
def ynYesCond (lower : List Char) : Bool :=
  hasSub lower ("да").data || hasSub lower ("yes").data
    || hasSub lower ("✓").data || hasSub lower ("+").data
    || hasSub lower ("v").data || hasSub lower ("x").data

/-- The no-branch condition of `extract_yes_no`. -/
def ynNoCond (lower : List Char) : Bool :=
  hasSub lower ("нет").data || hasSub lower ("no").data

def extract_yes_no (text : String) : String :=
  if text.data = [] then ""
  else
    let lower := lowerOf text
    if ynYesCond lower then "Да"
    else if ynNoCond lower then "Нет"
    else text

/-! ### `MuzlotoScanner::extract_phone_number`

```cpp
std::regex phone_regex(
    R"((\+7|8)[\s\-\(]?(\d{3})[\s\-\)]?(\d{3})[\s\-]?(\d{2})[\s\-]?(\d{2}))");
```
The character classes of the separators are disjoint from `\d` and from the
leading `+7`/`8`, so the greedy `?` quantifiers and the alternation never
backtrack: the ECMAScript leftmost match equals the deterministic greedy
match implemented below. -/

/-- ECMAScript `\s` on bytes: space, `\t`, `\n`, `\v`, `\f`, `\r`. -/
def isSpaceCh (c : Char) : Bool :=
  c == ' ' || c == '\t' || c == '\n' || c == '\x0b' || c == '\x0c' || c == '\r'

/-- the class `[\s\-\(]` -/
def sepA (c : Char) : Bool := isSpaceCh c || c == '-' || c == '('
/-- the class `[\s\-\)]` -/
def sepB (c : Char) : Bool := isSpaceCh c || c == '-' || c == ')'
/-- the class `[\s\-]` -/
def sepC (c : Char) : Bool := isSpaceCh c || c == '-'

/-- Greedy optional separator: consumed characters and remainder. -/
def optSep (p : Char → Bool) : List Char → List Char × List Char
  | [] => ([], [])
  | c :: rest => if p c then ([c], rest) else ([], c :: rest)

/-- `\d{n}`: exactly `n` digits, returning them and the remainder. -/
def takeDigits : Nat → List Char → Option (List Char × List Char)
  | 0, l => some ([], l)
  | _ + 1, [] => none
  | n + 1, c :: rest =>
    if isAsciiDigit c then
      match takeDigits n rest with
      | some (ds, l) => some (c :: ds, l)
      | none => none
    else none

/-- The part of the phone pattern after the leading `+7`/`8`:
`[\s\-\(]?\d{3}[\s\-\)]?\d{3}[\s\-]?\d{2}[\s\-]?\d{2}`.
Returns the consumed characters. -/
def matchPhoneTail (r0 : List Char) : Option (List Char) :=
  match optSep sepA r0 with
  | (s1, r1) =>
    match takeDigits 3 r1 with
    | none => none
    | some (d1, r2) =>
      match optSep sepB r2 with
      | (s2, r3) =>
        match takeDigits 3 r3 with
        | none => none
        | some (d2, r4) =>
          match optSep sepC r4 with
          | (s3, r5) =>
            match takeDigits 2 r5 with
            | none => none
            | some (d3, r6) =>
              match optSep sepC r6 with
              | (s4, r7) =>
                match takeDigits 2 r7 with
                | none => none
                | some (d4, _) =>
                  some (s1 ++ d1 ++ s2 ++ d2 ++ s3 ++ d3 ++ s4 ++ d4)

/-- An anchored attempt of the whole phone pattern at the current position. -/
def matchPhoneAt (l : List Char) : Option (List Char) :=
  match l with
  | '+' :: '7' :: rest => (matchPhoneTail rest).map (fun t => '+' :: '7' :: t)
  | '8' :: rest => (matchPhoneTail rest).map (fun t => '8' :: t)
  | _ => none

/-- `regex_search`: the match at the leftmost position where one exists. -/
def phoneSearchL : List Char → Option (List Char)
  | [] => none
  | c :: t =>
    match matchPhoneAt (c :: t) with
    | some m => some m
    | none => phoneSearchL t

def extract_phone_number (text : String) : String :=
  if text.data = [] then ""
  else
    match phoneSearchL text.data with
    | some m => String.mk m
    | none => ""

/-! ### `MuzlotoScanner::normalize_phone` -/

def keepPhoneChar (c : Char) : Bool := isAsciiDigit c || c == '+'

def normalize_phone (phone : String) : String :=
  match phone.data.filter keepPhoneChar with
  | [] => ""
  | c :: rest =>
    if c == '8' then String.mk ('+' :: '7' :: rest)
    else if (c :: rest).take 2 == ['+', '7'] then String.mk (c :: rest)
    else String.mk ('+' :: '7' :: c :: rest)

/-- The `extract_answers` step on one phone value: normalize when non-empty. -/
def phonePost (s : String) : String := if s == "" then s else normalize_phone s

/-- The phone post-processing as `scan_image` performs it:
`extract_phone_number` during parsing, then `extract_answers` applies
`normalize_phone` only to a non-empty extraction. -/
def phoneFinal (a : String) : String := phonePost (extract_phone_number a)

/-! ### The label table (`MuzlotoScanner::field_mapping`)

The `const` member is identical for every scanner instance; this is its
initializer value. The two long labels are spliced from adjacent C++ string
literals exactly as in the source. -/

def field_mapping : List (String × String) :=
  [("Дата:", "date"),
   ("Номер столика:", "table_number"),
   ("Место игры:", "location"),
   ("Довольны ли вы посещением Музлото?", "satisfaction_rating"),
   ("Понравился ли вам плейлист?", "playlist_rating"),
   ("Какие треки вы бы добавили?", "tracks_to_add"),
   ("Понравилась ли вам локация?", "location_rating"),
   ("Понравилась ли вам кухня и бар?", "kitchen_rating"),
   ("Устроил ли вас сервис, время подачи?", "service_rating"),
   ("Понравилась ли вам работа ведущего?", "host_rating"),
   ("Сколько раз вы были на Музлото?", "visits_count"),
   ("Оцените стоимость игры за билет", "ticket_price"),
   ("Знаете ли вы, что Музлото можно заказать на корпоратив или день рождения",
    "know_booking"),
   ("Откуда вы о нас узнали?", "source_info"),
   ("Ради чего вы обычно ходите на подобные вечеринки?", "purpose"),
   ("Что нам стоит улучшить?", "improvements"),
   ("Если вы хотите, чтобы мы с вами связались - оставьте ваш номер телефона.",
    "phone_number")]

/-! ### `MuzlotoScanner::parse_muzloto_form` — line splitting

`std::getline` splits on `'\n'`; each line is then stripped of every `'\n'`
and `'\r'` character and dropped if empty. `getline` produces no final empty
segment for text ending in `'\n'` and no segment at all for empty text, but
since empty lines are filtered out anyway, splitting on `'\n'` (with a final
possibly-empty segment) followed by the filter is observably identical. -/

def splitNlAux : List Char → List Char → List (List Char)
  | [], acc => [acc.reverse]
  | '\n' :: rest, acc => acc.reverse :: splitNlAux rest []
  | c :: rest, acc => splitNlAux rest (c :: acc)

/-- The erase/remove_if of `'\n'`/`'\r'` applied to one line. -/
def cleanLine (l : List Char) : List Char :=
  l.filter (fun c => !(c == '\n' || c == '\r'))

/-- The non-empty cleaned lines of the raw OCR text, in order. -/
def cleanedLines (raw : String) : List (List Char) :=
  ((splitNlAux raw.data []).map cleanLine).filter (fun l => !l.isEmpty)

/-! ### `parse_muzloto_form` — the matching loop -/

/-- One entry of the `fields` vector / `answers` map:
matched question text, its field identifier, and the captured answer. -/
structure Capture where
  q : String
  fid : String
  ans : List Char
deriving DecidableEq, Repr

/-- The inner `for (question, field_id)` loop with `break`:
the first table entry whose question occurs in the line. -/
def findLabel (fm : List (String × String)) (l : List Char) :
    Option (String × String) :=
  match fm with
  | [] => none
  | (q, fid) :: rest => if hasSub l q.data then some (q, fid) else findLabel rest l

/-- `is_next_question`: some label of the table occurs in the line. -/
def isQuestion (fm : List (String × String)) (l : List Char) : Bool :=
  fm.any (fun p => hasSub l p.1.data)

/-- The answer-capture loop `for (j = i + 1; ...)`: the first non-empty line
that is not itself a question, together with the lines after it (the C++
sets `i = j`, so scanning resumes past the consumed answer). `none` when no
such line exists (the C++ leaves `i` unchanged and the answer empty). -/
def findAnswer (fm : List (String × String)) :
    List (List Char) → Option (List Char × List (List Char))
  | [] => none
  | l :: rest =>
    if !l.isEmpty && !isQuestion fm l then some (l, rest)
    else findAnswer fm rest

/-- The outer `for (i = 0; ...)` loop. The C++ mutates `i` (jumping past a
consumed answer), which we render as recursion on the remaining suffix of
lines; the fuel argument makes the recursion structural, and the initial
fuel `lines.length` is an upper bound on the number of iterations since
every step drops at least one line. -/
def parseLinesF (fm : List (String × String)) :
    Nat → List (List Char) → List Capture
  | 0, _ => []
  | _ + 1, [] => []
  | f + 1, l :: rest =>
    match findLabel fm l with
    | none => parseLinesF fm f rest
    | some (q, fid) =>
      match findAnswer fm rest with
      | some (a, r2) => ⟨q, fid, a⟩ :: parseLinesF fm f r2
      | none => ⟨q, fid, []⟩ :: parseLinesF fm f rest

/-- All captures produced for a raw text. -/
def capsOf (fm : List (String × String)) (raw : String) : List Capture :=
  parseLinesF fm (cleanedLines raw).length (cleanedLines raw)

/-- `answers[field_id]` after the loop: the last write wins
(`std::unordered_map` assignment), a missing key default-constructs `""`. -/
def answersOf (caps : List Capture) (fid : String) : String :=
  match caps.reverse.find? (fun c => c.fid == fid) with
  | some c => String.mk c.ans
  | none => ""

/-! ### `ScanResult` and the scan orchestration -/

structure FieldResult where
  name : String
  value : String
  confidence : Float

structure ScanResult where
  success : Bool
  error_message : String
  fields : List FieldResult
  raw_text : String
  processing_time_ms : Float
  date : String
  table_number : String
  location : String
  satisfaction_rating : String
  playlist_rating : String
  tracks_to_add : String
  location_rating : String
  kitchen_rating : String
  service_rating : String
  host_rating : String
  visits_count : String
  ticket_price : String
  know_booking : String
  source_info : String
  purpose : String
  improvements : String
  phone_number : String

/-- A freshly constructed `ScanResult` (all strings default to `""`,
the vector to `[]`; `success` is assigned on every path before use). -/
def emptyResult (elapsed : Float) : ScanResult :=
  { success := false, error_message := "", fields := [], raw_text := "",
    processing_time_ms := elapsed,
    date := "", table_number := "", location := "", satisfaction_rating := "",
    playlist_rating := "", tracks_to_add := "", location_rating := "",
    kitchen_rating := "", service_rating := "", host_rating := "",
    visits_count := "", ticket_price := "", know_booking := "",
    source_info := "", purpose := "", improvements := "", phone_number := "" }

/-- `parse_muzloto_form(result)`: split `raw_text` into lines, run the
matching loop, push the `FieldResult`s and fill the named members from the
`answers` map (missing keys read as `""`). -/
def parse_muzloto_form (fm : List (String × String)) (r : ScanResult) :
    ScanResult :=
  let caps := capsOf fm r.raw_text
  { r with
    fields := r.fields ++ caps.map (fun c => ⟨c.q, String.mk c.ans, 0.9⟩),
    date := answersOf caps "date",
    table_number := answersOf caps "table_number",
    location := answersOf caps "location",
    satisfaction_rating := extract_rating (answersOf caps "satisfaction_rating"),
    playlist_rating := extract_rating (answersOf caps "playlist_rating"),
    tracks_to_add := answersOf caps "tracks_to_add",
    location_rating := extract_rating (answersOf caps "location_rating"),
    kitchen_rating := extract_rating (answersOf caps "kitchen_rating"),
    service_rating := extract_rating (answersOf caps "service_rating"),
    host_rating := extract_rating (answersOf caps "host_rating"),
    visits_count := answersOf caps "visits_count",
    ticket_price := extract_ticket_price (answersOf caps "ticket_price"),
    know_booking := extract_yes_no (answersOf caps "know_booking"),
    source_info := answersOf caps "source_info",
    purpose := answersOf caps "purpose",
    improvements := answersOf caps "improvements",
    phone_number := extract_phone_number (answersOf caps "phone_number") }

/-- `extract_answers(result)`: normalize the phone number when non-empty. -/
def extract_answers (r : ScanResult) : ScanResult :=
  if r.phone_number == "" then r
  else { r with phone_number := normalize_phone r.phone_number }

/-- The scanner's mutable state visible to the claims: the `initialized`
flag (named `initFlag` here) and the label table member. -/
structure ScannerState where
  initFlag : Bool
  fmap : List (String × String)

/-- The environment of one `scan_image` call: everything decided by the
outside world (OpenCV decode, preprocessing, Tesseract). -/
inductive ScanEnv where
  /-- `cv::imread` produced an empty image. -/
  | loadFail
  /-- preprocessing / OCR threw a `std::exception` with message `m`. -/
  | ocrThrow (m : String)
  /-- OCR succeeded and produced text `t` (a null `GetUTF8Text` is `t = ""`). -/
  | ocrText (t : String)

/-- A failure `ScanResult` as the `catch` block builds it. -/
def failResult (msg : String) (elapsed : Float) : ScanResult :=
  { emptyResult elapsed with success := false, error_message := msg }

/-- `MuzlotoScanner::scan_image`. Every throw inside the `try` is caught at
the boundary and becomes a failure result; the state is returned unchanged
(the body writes no member of the scanner). -/
def scan_image (st : ScannerState) (image_path : String) (env : ScanEnv)
    (elapsed : Float) : ScanResult × ScannerState :=
  (match st.initFlag, env with
   | false, _ => failResult "Сканер не инициализирован" elapsed
   | true, ScanEnv.loadFail =>
     failResult ("Не удалось загрузить изображение: " ++ image_path) elapsed
   | true, ScanEnv.ocrThrow m => failResult m elapsed
   | true, ScanEnv.ocrText t =>
     extract_answers (parse_muzloto_form st.fmap
       { emptyResult elapsed with raw_text := t, success := true }),
   st)

/-- Read the named answer member selected by a field identifier; used only
to state claims uniformly over the 17 fields. -/
def fieldOf (r : ScanResult) (fid : String) : String :=
  if fid == "date" then r.date
  else if fid == "table_number" then r.table_number
  else if fid == "location" then r.location
  else if fid == "satisfaction_rating" then r.satisfaction_rating
  else if fid == "playlist_rating" then r.playlist_rating
  else if fid == "tracks_to_add" then r.tracks_to_add
  else if fid == "location_rating" then r.location_rating
  else if fid == "kitchen_rating" then r.kitchen_rating
  else if fid == "service_rating" then r.service_rating
  else if fid == "host_rating" then r.host_rating
  else if fid == "visits_count" then r.visits_count
  else if fid == "ticket_price" then r.ticket_price
  else if fid == "know_booking" then r.know_booking
  else if fid == "source_info" then r.source_info
  else if fid == "purpose" then r.purpose
  else if fid == "improvements" then r.improvements
  else if fid == "phone_number" then r.phone_number
  else ""

/-! ### The C interface (`muzloto_scan_image`) -/

/-- UTF-8 encoding of one character. -/
def charBytes (c : Char) : List Nat :=
  let n := c.toNat
  if n < 0x80 then [n]
  else if n < 0x800 then [0xC0 + n / 64, 0x80 + n % 64]
  else if n < 0x10000 then
    [0xE0 + n / 4096, 0x80 + n / 64 % 64, 0x80 + n % 64]
  else
    [0xF0 + n / 262144, 0x80 + n / 4096 % 64, 0x80 + n / 64 % 64, 0x80 + n % 64]

/-- The bytes of a `std::string` holding this text. -/
def strBytes (s : String) : List Nat := s.data.flatMap charBytes

/-- `std::string::substr(pos, len)` at the byte level. -/
def cppSubstr (l : List Nat) (pos len : Nat) : List Nat :=
  (l.drop pos).take len

/-- The JSON object built by the C wrapper `muzloto_scan_image`; `raw_text`
is kept as the bytes actually emitted, because `substr(0, 500)` counts
bytes. -/
structure JsonOut where
  success : Bool
  error_message : String
  processing_time_ms : Float
  date : String
  table_number : String
  location : String
  satisfaction_rating : String
  playlist_rating : String
  tracks_to_add : String
  location_rating : String
  kitchen_rating : String
  service_rating : String
  host_rating : String
  visits_count : String
  ticket_price : String
  know_booking : String
  source_info : String
  purpose : String
  improvements : String
  phone_number : String
  raw_text : List Nat
  fields : List FieldResult

/-- The result-to-JSON assembly of `muzloto_scan_image` (the serialization
to a malloc'd string is outside the data model). -/
def muzloto_scan_image (r : ScanResult) : JsonOut :=
  { success := r.success, error_message := r.error_message,
    processing_time_ms := r.processing_time_ms,
    date := r.date, table_number := r.table_number, location := r.location,
    satisfaction_rating := r.satisfaction_rating,
    playlist_rating := r.playlist_rating, tracks_to_add := r.tracks_to_add,
    location_rating := r.location_rating, kitchen_rating := r.kitchen_rating,
    service_rating := r.service_rating, host_rating := r.host_rating,
    visits_count := r.visits_count, ticket_price := r.ticket_price,
    know_booking := r.know_booking, source_info := r.source_info,
    purpose := r.purpose, improvements := r.improvements,
    phone_number := r.phone_number,
    raw_text := cppSubstr (strBytes r.raw_text) 0 500,
    fields := r.fields }

/-- Modelled from the spec: "raw text truncated to the first 500 characters"
— truncation counting characters, to be compared with what the code emits. -/
def specRawTruncChars (s : String) : List Nat :=
  strBytes (String.mk (s.data.take 500))

/-! ## Helper lemmas -/

/-- The digit class `[1-9]` of the rating regex. -/
def isRateDigit (c : Char) : Bool := '1' ≤ c && c ≤ '9'

theorem ratingSearch_branch (c : Char) (rest : List Char) :
    ratingSearch (c :: rest) =
      if c == '1' && rest.head? == some '0' then some ['1', '0']
      else if '1' ≤ c && c ≤ '9' then some [c]
      else ratingSearch rest := rfl

theorem ratingSearch_none_iff (l : List Char) :
    ratingSearch l = none ↔ ∀ c ∈ l, isRateDigit c = false := by
  induction l with
  | nil => simp [ratingSearch]
  | cons c rest ih =>
    rw [ratingSearch_branch]
    by_cases h1 : (c == '1' && rest.head? == some '0') = true
    · rw [if_pos h1]
      simp only [Bool.and_eq_true, beq_iff_eq] at h1
      constructor
      · intro hc; cases hc
      · intro hall
        have := hall c (List.mem_cons_self c rest)
        rw [h1.1] at this
        simp [isRateDigit] at this
    · rw [if_neg h1]
      by_cases h2 : ('1' ≤ c && c ≤ '9') = true
      · rw [if_pos h2]
        constructor
        · intro hc; cases hc
        · intro hall
          have := hall c (List.mem_cons_self c rest)
          rw [isRateDigit, h2] at this
          cases this
      · rw [if_neg h2, ih]
        constructor
        · intro hall c' hc'
          rcases List.mem_cons.mp hc' with hh | ht
          · subst hh; simpa [isRateDigit] using h2
          · exact hall c' ht
        · intro hall c' hc'
          exact hall c' (List.mem_cons_of_mem _ hc')

theorem ratingSearch_some_decomp (l m : List Char)
    (h : ratingSearch l = some m) :
    ∃ pre suf, l = pre ++ m ++ suf ∧ (∀ c ∈ pre, isRateDigit c = false) ∧
      (m = ['1', '0'] ∨
        ∃ d, m = [d] ∧ isRateDigit d = true ∧
          ¬(d = '1' ∧ suf.head? = some '0')) := by
  induction l with
  | nil => simp [ratingSearch] at h
  | cons c rest ih =>
    rw [ratingSearch_branch] at h
    by_cases h1 : (c == '1' && rest.head? == some '0') = true
    · rw [if_pos h1] at h
      injection h with h; subst h
      simp only [Bool.and_eq_true, beq_iff_eq] at h1
      obtain ⟨hc, hh⟩ := h1
      subst hc
      cases rest with
      | nil => simp at hh
      | cons r0 rs =>
        simp only [List.head?] at hh
        injection hh with hh; subst hh
        exact ⟨[], rs, by simp, by simp, Or.inl rfl⟩
    · rw [if_neg h1] at h
      by_cases h2 : ('1' ≤ c && c ≤ '9') = true
      · rw [if_pos h2] at h
        injection h with h; subst h
        refine ⟨[], rest, by simp, by simp, Or.inr ⟨c, rfl, h2, ?_⟩⟩
        rintro ⟨hc, hh⟩
        subst hc
        apply h1
        simp [hh]
      · rw [if_neg h2] at h
        obtain ⟨pre, suf, hl, hpre, hshape⟩ := ih h
        refine ⟨c :: pre, suf, by simp [hl], ?_, hshape⟩
        intro c' hc'
        rcases List.mem_cons.mp hc' with hh | ht
        · subst hh; simpa [isRateDigit] using h2
        · exact hpre c' ht

theorem extract_rating_eq_of_none (t : String) (h0 : ¬t.data = [])
    (hm : ratingSearch t.data = none) : extract_rating t = t := by
  unfold extract_rating
  rw [if_neg h0, hm]

theorem extract_rating_eq_of_some (t : String) (m : List Char)
    (h0 : ¬t.data = []) (hm : ratingSearch t.data = some m) :
    extract_rating t = String.mk m := by
  unfold extract_rating
  rw [if_neg h0, hm]

theorem extract_rating_idem (t : String) :
    extract_rating (extract_rating t) = extract_rating t := by
  by_cases h0 : t.data = []
  · have ht : extract_rating t = "" := by unfold extract_rating; rw [if_pos h0]
    rw [ht]; decide
  · cases hm : ratingSearch t.data with
    | none => rw [extract_rating_eq_of_none t h0 hm, extract_rating_eq_of_none t h0 hm]
    | some m =>
      rw [extract_rating_eq_of_some t m h0 hm]
      obtain ⟨pre, suf, _, _, hshape⟩ := ratingSearch_some_decomp _ _ hm
      rcases hshape with h10 | ⟨d, hd, hdig, _⟩
      · subst h10; decide
      · subst hd
        have hsr : ratingSearch [d] = some [d] := by
          rw [ratingSearch_branch]
          have hne : ¬(d == '1' && List.head? ([] : List Char) == some '0') = true := by
            simp
          rw [if_neg hne, if_pos (by rw [isRateDigit] at hdig; exact hdig)]
        exact extract_rating_eq_of_some (String.mk [d]) [d] (by simp) hsr

theorem extract_yes_no_idem (t : String) :
    extract_yes_no (extract_yes_no t) = extract_yes_no t := by
  by_cases h0 : t.data = []
  · have ht : extract_yes_no t = "" := by unfold extract_yes_no; rw [if_pos h0]
    rw [ht]; decide
  · by_cases h1 : ynYesCond (lowerOf t) = true
    · have ht : extract_yes_no t = "Да" := by
        unfold extract_yes_no; rw [if_neg h0, if_pos h1]
      rw [ht]; decide
    · by_cases h2 : ynNoCond (lowerOf t) = true
      · have ht : extract_yes_no t = "Нет" := by
          unfold extract_yes_no; rw [if_neg h0, if_neg h1, if_pos h2]
        rw [ht]; decide
      · have ht : extract_yes_no t = t := by
          unfold extract_yes_no; rw [if_neg h0, if_neg h1, if_neg h2]
        rw [ht, ht]

theorem extract_ticket_price_idem (t : String) :
    extract_ticket_price (extract_ticket_price t) = extract_ticket_price t := by
  by_cases h0 : t.data = []
  · have ht : extract_ticket_price t = "" := by
      unfold extract_ticket_price; rw [if_pos h0]
    rw [ht]; decide
  · by_cases h1 : tpDearCond (lowerOf t) = true
    · have ht : extract_ticket_price t = "можно смело ставить дороже" := by
        unfold extract_ticket_price; rw [if_neg h0, if_pos h1]
      rw [ht]; decide
    · by_cases h2 : hasSub (lowerOf t) ("доступно").data = true
      · have ht : extract_ticket_price t = "доступно" := by
          unfold extract_ticket_price; rw [if_neg h0, if_neg h1, if_pos h2]
        rw [ht]; decide
      · by_cases h3 : hasSub (lowerOf t) ("дорого").data = true
        · have ht : extract_ticket_price t = "дорого" := by
            unfold extract_ticket_price; rw [if_neg h0, if_neg h1, if_neg h2, if_pos h3]
          rw [ht]; decide
        · have ht : extract_ticket_price t = t := by
            unfold extract_ticket_price; rw [if_neg h0, if_neg h1, if_neg h2, if_neg h3]
          rw [ht, ht]

theorem filter_keep_sub (c : Char) (rest : List Char) (l : List Char)
    (hf : l.filter keepPhoneChar = c :: rest) :
    keepPhoneChar c = true ∧ rest.filter keepPhoneChar = rest := by
  have hkeep : ∀ x ∈ c :: rest, keepPhoneChar x = true := by
    intro x hx
    exact List.of_mem_filter (hf ▸ hx)
  exact ⟨hkeep c (List.mem_cons_self c rest),
    List.filter_eq_self.mpr (fun x hx => hkeep x (List.mem_cons_of_mem _ hx))⟩

theorem normalize_phone_nil (phone : String)
    (hf : phone.data.filter keepPhoneChar = []) : normalize_phone phone = "" := by
  unfold normalize_phone
  rw [hf]

theorem normalize_phone_cons (phone : String) (c : Char) (rest : List Char)
    (hf : phone.data.filter keepPhoneChar = c :: rest) :
    normalize_phone phone =
      if c == '8' then String.mk ('+' :: '7' :: rest)
      else if (c :: rest).take 2 == ['+', '7'] then String.mk (c :: rest)
      else String.mk ('+' :: '7' :: c :: rest) := by
  unfold normalize_phone
  rw [hf]

theorem normalize_phone_idem (p : String) :
    normalize_phone (normalize_phone p) = normalize_phone p := by
  cases hf : p.data.filter keepPhoneChar with
  | nil =>
    rw [normalize_phone_nil p hf]
    decide
  | cons c rest =>
    obtain ⟨hkc, hrest⟩ := filter_keep_sub c rest _ hf
    rw [normalize_phone_cons p c rest hf]
    by_cases h8 : (c == '8') = true
    · rw [if_pos h8]
      have hd : (String.mk ('+' :: '7' :: rest)).data.filter keepPhoneChar
          = '+' :: '7' :: rest := by
        show ('+' :: '7' :: rest).filter keepPhoneChar = '+' :: '7' :: rest
        rw [List.filter_cons_of_pos (show keepPhoneChar '+' = true by decide),
          List.filter_cons_of_pos (show keepPhoneChar '7' = true by decide), hrest]
      rw [normalize_phone_cons _ '+' ('7' :: rest) hd]
      have hne8 : ¬(('+' : Char) == '8') = true := by decide
      have hok : ((('+' : Char) :: '7' :: rest).take 2 == ['+', '7']) = true := by
        simp [List.take]
      rw [if_neg hne8, if_pos hok]
    · rw [if_neg h8]
      by_cases h27 : ((c :: rest).take 2 == ['+', '7']) = true
      · rw [if_pos h27]
        have hd : (String.mk (c :: rest)).data.filter keepPhoneChar
            = c :: rest := by
          show (c :: rest).filter keepPhoneChar = c :: rest
          rw [List.filter_cons_of_pos hkc, hrest]
        rw [normalize_phone_cons _ c rest hd, if_neg h8, if_pos h27]
      · rw [if_neg h27]
        have hd : (String.mk ('+' :: '7' :: c :: rest)).data.filter keepPhoneChar
            = '+' :: '7' :: c :: rest := by
          show ('+' :: '7' :: c :: rest).filter keepPhoneChar = '+' :: '7' :: c :: rest
          rw [List.filter_cons_of_pos (show keepPhoneChar '+' = true by decide),
            List.filter_cons_of_pos (show keepPhoneChar '7' = true by decide),
            List.filter_cons_of_pos hkc, hrest]
        rw [normalize_phone_cons _ '+' ('7' :: c :: rest) hd]
        have hne8 : ¬(('+' : Char) == '8') = true := by decide
        have hok : ((('+' : Char) :: '7' :: c :: rest).take 2 == ['+', '7']) = true := by
          simp [List.take]
        rw [if_neg hne8, if_pos hok]

theorem matchPhoneAt_shape (l m : List Char) (h : matchPhoneAt l = some m) :
    (∃ r, m = '+' :: '7' :: r) ∨ ∃ r, m = '8' :: r := by
  unfold matchPhoneAt at h
  split at h
  · rcases Option.map_eq_some'.mp h with ⟨t, _, ht⟩
    exact Or.inl ⟨t, ht.symm⟩
  · rcases Option.map_eq_some'.mp h with ⟨t, _, ht⟩
    exact Or.inr ⟨t, ht.symm⟩
  · cases h

theorem phoneSearchL_leftmost (l m : List Char) (h : phoneSearchL l = some m) :
    ∃ k, matchPhoneAt (l.drop k) = some m ∧
      ∀ j, j < k → matchPhoneAt (l.drop j) = none := by
  induction l with
  | nil => cases h
  | cons c t ih =>
    rw [phoneSearchL] at h
    cases hm : matchPhoneAt (c :: t) with
    | some m0 =>
      rw [hm] at h
      injection h with h; subst h
      exact ⟨0, hm, by intro j hj; cases hj⟩
    | none =>
      rw [hm] at h
      obtain ⟨k, hk, hlt⟩ := ih h
      refine ⟨k + 1, hk, ?_⟩
      intro j hj
      cases j with
      | zero => exact hm
      | succ j => exact hlt j (Nat.lt_of_succ_lt_succ hj)

theorem extract_phone_number_eq_of_none (t : String)
    (h : phoneSearchL t.data = none) : extract_phone_number t = "" := by
  unfold extract_phone_number
  by_cases h0 : t.data = []
  · rw [if_pos h0]
  · rw [if_neg h0, h]

theorem extract_phone_number_eq_of_some (t : String) (m : List Char)
    (h0 : ¬t.data = []) (h : phoneSearchL t.data = some m) :
    extract_phone_number t = String.mk m := by
  unfold extract_phone_number
  rw [if_neg h0, h]

theorem phoneFinal_of_none (t : String) (h : phoneSearchL t.data = none) :
    phoneFinal t = "" := by
  unfold phoneFinal
  rw [extract_phone_number_eq_of_none t h]
  rfl

/-- Whatever `phoneFinal` produces is either empty or starts with `+7`. -/
theorem phoneFinal_shape (t : String) :
    phoneFinal t = "" ∨ (phoneFinal t).data.take 2 = ['+', '7'] := by
  by_cases h0 : t.data = []
  · left
    unfold phoneFinal extract_phone_number
    rw [if_pos h0]
    rfl
  · cases hs : phoneSearchL t.data with
    | none => exact Or.inl (phoneFinal_of_none t hs)
    | some m =>
      right
      have hext : extract_phone_number t = String.mk m :=
        extract_phone_number_eq_of_some t m h0 hs
      have hkind := matchPhoneAt_shape _ _ (phoneSearchL_leftmost _ _ hs).choose_spec.1
      have hmne : m ≠ [] := by
        rcases hkind with ⟨r, hr⟩ | ⟨r, hr⟩ <;> subst hr <;> intro hcontra <;> cases hcontra
      have hne : (String.mk m == "") = false := by
        apply beq_eq_false_iff_ne.mpr
        intro hcontra
        have hd := congrArg String.data hcontra
        rw [show ("" : String).data = [] from rfl] at hd
        exact hmne hd
      have hpf : phoneFinal t = normalize_phone (String.mk m) := by
        unfold phoneFinal
        rw [hext]
        show (if (String.mk m == "") = true then String.mk m
          else normalize_phone (String.mk m)) = _
        rw [hne, if_neg (show ¬false = true by decide)]
      rw [hpf]
      rcases hkind with ⟨r, hr⟩ | ⟨r, hr⟩ <;> subst hr
      · have hfd : (String.mk ('+' :: '7' :: r)).data.filter keepPhoneChar
            = '+' :: '7' :: r.filter keepPhoneChar := by
          show ('+' :: '7' :: r).filter keepPhoneChar = '+' :: '7' :: r.filter keepPhoneChar
          rw [List.filter_cons_of_pos (show keepPhoneChar '+' = true by decide),
            List.filter_cons_of_pos (show keepPhoneChar '7' = true by decide)]
        rw [normalize_phone_cons _ '+' ('7' :: r.filter keepPhoneChar) hfd]
        have hne8 : ¬(('+' : Char) == '8') = true := by decide
        have hok : ((('+' : Char) :: '7' :: r.filter keepPhoneChar).take 2
            == ['+', '7']) = true := by simp [List.take]
        rw [if_neg hne8, if_pos hok]
        simp [List.take]
      · have hfd : (String.mk ('8' :: r)).data.filter keepPhoneChar
            = '8' :: r.filter keepPhoneChar := by
          show ('8' :: r).filter keepPhoneChar = '8' :: r.filter keepPhoneChar
          rw [List.filter_cons_of_pos (show keepPhoneChar '8' = true by decide)]
        rw [normalize_phone_cons _ '8' (r.filter keepPhoneChar) hfd]
        rw [if_pos (show (('8' : Char) == '8') = true by decide)]
        simp [List.take]

/-! ### Parser lemmas -/

theorem findLabel_sound (fm : List (String × String)) (l : List Char)
    (q fid : String) (h : findLabel fm l = some (q, fid)) :
    (q, fid) ∈ fm ∧ hasSub l q.data = true := by
  induction fm with
  | nil => cases h
  | cons p rest ih =>
    obtain ⟨q0, f0⟩ := p
    rw [findLabel] at h
    by_cases hq : hasSub l q0.data = true
    · rw [if_pos hq] at h
      injection h with h
      injection h with h1 h2
      subst h1; subst h2
      exact ⟨List.mem_cons_self _ _, hq⟩
    · rw [if_neg hq] at h
      obtain ⟨hmem, hsub⟩ := ih h
      exact ⟨List.mem_cons_of_mem _ hmem, hsub⟩

theorem findAnswer_decomp (fm : List (String × String))
    (ls : List (List Char)) (a : List Char) (r2 : List (List Char))
    (h : findAnswer fm ls = some (a, r2)) :
    a.isEmpty = false ∧ isQuestion fm a = false ∧
      ∃ pre, ls = pre ++ a :: r2 ∧
        ∀ l ∈ pre, l.isEmpty = true ∨ isQuestion fm l = true := by
  induction ls with
  | nil => cases h
  | cons l rest ih =>
    rw [findAnswer] at h
    by_cases hc : (!l.isEmpty && !isQuestion fm l) = true
    · rw [if_pos hc] at h
      injection h with h
      injection h with h1 h2
      subst h1; subst h2
      rw [Bool.and_eq_true, Bool.not_eq_true', Bool.not_eq_true'] at hc
      exact ⟨hc.1, hc.2, [], rfl, by intro l hl; cases hl⟩
    · rw [if_neg hc] at h
      obtain ⟨ha1, ha2, pre, hls, hpre⟩ := ih h
      refine ⟨ha1, ha2, l :: pre, by rw [hls]; rfl, ?_⟩
      intro x hx
      rcases List.mem_cons.mp hx with hh | ht
      · subst hh
        rw [Bool.and_eq_true, Bool.not_eq_true', Bool.not_eq_true'] at hc
        rcases Decidable.not_and_iff_or_not.mp hc with h1 | h2
        · simp at h1
          exact Or.inl (by simp [h1])
        · simp at h2
          exact Or.inr h2
      · exact hpre x ht

theorem findAnswer_sub (fm : List (String × String))
    (ls : List (List Char)) (a : List Char) (r2 : List (List Char))
    (h : findAnswer fm ls = some (a, r2)) : ∀ x ∈ r2, x ∈ ls := by
  obtain ⟨_, _, pre, hls, _⟩ := findAnswer_decomp fm ls a r2 h
  intro x hx
  rw [hls]
  exact List.mem_append_right _ (List.mem_cons_of_mem _ hx)

theorem parseLinesF_mem (fm : List (String × String)) (f : Nat)
    (ls : List (List Char)) (c : Capture) (h : c ∈ parseLinesF fm f ls) :
    (c.q, c.fid) ∈ fm ∧ ∃ l ∈ ls, hasSub l c.q.data = true := by
  induction f generalizing ls with
  | zero => cases h
  | succ f ih =>
    cases ls with
    | nil => cases h
    | cons l rest =>
      rw [parseLinesF] at h
      cases hfl : findLabel fm l with
      | none =>
        rw [hfl] at h
        obtain ⟨hmem, l2, hl2, hsub⟩ := ih rest h
        exact ⟨hmem, l2, List.mem_cons_of_mem _ hl2, hsub⟩
      | some p =>
        obtain ⟨q, fid⟩ := p
        rw [hfl] at h
        cases hfa : findAnswer fm rest with
        | some ar =>
          obtain ⟨a, r2⟩ := ar
          rw [hfa] at h
          rcases List.mem_cons.mp h with hh | ht
          · subst hh
            obtain ⟨hmem, hsub⟩ := findLabel_sound fm l q fid hfl
            exact ⟨hmem, l, List.mem_cons_self _ _, hsub⟩
          · obtain ⟨hmem, l2, hl2, hsub⟩ := ih r2 ht
            exact ⟨hmem, l2,
              List.mem_cons_of_mem _ (findAnswer_sub fm rest a r2 hfa l2 hl2), hsub⟩
        | none =>
          rw [hfa] at h
          rcases List.mem_cons.mp h with hh | ht
          · subst hh
            obtain ⟨hmem, hsub⟩ := findLabel_sound fm l q fid hfl
            exact ⟨hmem, l, List.mem_cons_self _ _, hsub⟩
          · obtain ⟨hmem, l2, hl2, hsub⟩ := ih rest ht
            exact ⟨hmem, l2, List.mem_cons_of_mem _ hl2, hsub⟩

theorem answersOf_of_no_write (caps : List Capture) (fid : String)
    (h : ∀ c ∈ caps, c.fid ≠ fid) : answersOf caps fid = "" := by
  have hnone : caps.reverse.find? (fun c => c.fid == fid) = none := by
    rw [List.find?_eq_none]
    intro c hc
    simpa using h c (List.mem_reverse.mp hc)
  rw [answersOf, hnone]

/-- Field identifiers determine their question in the label table. -/
theorem field_mapping_snd_inj :
    ∀ p ∈ field_mapping, ∀ p2 ∈ field_mapping, p.2 = p2.2 → p.1 = p2.1 := by
  decide

/-! ### Orchestration lemmas -/

theorem extract_answers_eq (r : ScanResult) :
    extract_answers r = { r with phone_number := phonePost r.phone_number } := by
  unfold extract_answers phonePost
  by_cases h : (r.phone_number == "") = true
  · rw [if_pos h, if_pos h]
  · rw [if_neg h, if_neg h]

theorem scan_ok_eq (fm : List (String × String)) (p t : String) (el : Float) :
    (scan_image ⟨true, fm⟩ p (ScanEnv.ocrText t) el).1 =
      extract_answers (parse_muzloto_form fm
        { emptyResult el with raw_text := t, success := true }) := rfl

theorem scan_ok_success (fm : List (String × String)) (p t : String)
    (el : Float) :
    ((scan_image ⟨true, fm⟩ p (ScanEnv.ocrText t) el).1).success = true := by
  rw [scan_ok_eq, extract_answers_eq]
  rfl

theorem scan_ok_raw (fm : List (String × String)) (p t : String) (el : Float) :
    ((scan_image ⟨true, fm⟩ p (ScanEnv.ocrText t) el).1).raw_text = t := by
  rw [scan_ok_eq, extract_answers_eq]
  rfl

theorem fieldOf_eq_date (r : ScanResult) :
    fieldOf r ("date") = r.date := by
  simp [fieldOf]

theorem scanField_date (fm : List (String × String)) (p t : String)
    (el : Float) :
    ((scan_image ⟨true, fm⟩ p (ScanEnv.ocrText t) el).1).date = answersOf (capsOf fm t) ("date") := by
  rw [scan_ok_eq, extract_answers_eq]
  rfl

theorem fieldOf_eq_table_number (r : ScanResult) :
    fieldOf r ("table_number") = r.table_number := by
  simp [fieldOf]

theorem scanField_table_number (fm : List (String × String)) (p t : String)
    (el : Float) :
    ((scan_image ⟨true, fm⟩ p (ScanEnv.ocrText t) el).1).table_number = answersOf (capsOf fm t) ("table_number") := by
  rw [scan_ok_eq, extract_answers_eq]
  rfl

theorem fieldOf_eq_location (r : ScanResult) :
    fieldOf r ("location") = r.location := by
  simp [fieldOf]

theorem scanField_location (fm : List (String × String)) (p t : String)
    (el : Float) :
    ((scan_image ⟨true, fm⟩ p (ScanEnv.ocrText t) el).1).location = answersOf (capsOf fm t) ("location") := by
  rw [scan_ok_eq, extract_answers_eq]
  rfl

theorem fieldOf_eq_satisfaction_rating (r : ScanResult) :
    fieldOf r ("satisfaction_rating") = r.satisfaction_rating := by
  simp [fieldOf]

theorem scanField_satisfaction_rating (fm : List (String × String)) (p t : String)
    (el : Float) :
    ((scan_image ⟨true, fm⟩ p (ScanEnv.ocrText t) el).1).satisfaction_rating = extract_rating (answersOf (capsOf fm t) ("satisfaction_rating")) := by
  rw [scan_ok_eq, extract_answers_eq]
  rfl

theorem fieldOf_eq_playlist_rating (r : ScanResult) :
    fieldOf r ("playlist_rating") = r.playlist_rating := by
  simp [fieldOf]

theorem scanField_playlist_rating (fm : List (String × String)) (p t : String)
    (el : Float) :
    ((scan_image ⟨true, fm⟩ p (ScanEnv.ocrText t) el).1).playlist_rating = extract_rating (answersOf (capsOf fm t) ("playlist_rating")) := by
  rw [scan_ok_eq, extract_answers_eq]
  rfl

theorem fieldOf_eq_tracks_to_add (r : ScanResult) :
    fieldOf r ("tracks_to_add") = r.tracks_to_add := by
  simp [fieldOf]

theorem scanField_tracks_to_add (fm : List (String × String)) (p t : String)
    (el : Float) :
    ((scan_image ⟨true, fm⟩ p (ScanEnv.ocrText t) el).1).tracks_to_add = answersOf (capsOf fm t) ("tracks_to_add") := by
  rw [scan_ok_eq, extract_answers_eq]
  rfl

theorem fieldOf_eq_location_rating (r : ScanResult) :
    fieldOf r ("location_rating") = r.location_rating := by
  simp [fieldOf]

theorem scanField_location_rating (fm : List (String × String)) (p t : String)
    (el : Float) :
    ((scan_image ⟨true, fm⟩ p (ScanEnv.ocrText t) el).1).location_rating = extract_rating (answersOf (capsOf fm t) ("location_rating")) := by
  rw [scan_ok_eq, extract_answers_eq]
  rfl

theorem fieldOf_eq_kitchen_rating (r : ScanResult) :
    fieldOf r ("kitchen_rating") = r.kitchen_rating := by
  simp [fieldOf]

theorem scanField_kitchen_rating (fm : List (String × String)) (p t : String)
    (el : Float) :
    ((scan_image ⟨true, fm⟩ p (ScanEnv.ocrText t) el).1).kitchen_rating = extract_rating (answersOf (capsOf fm t) ("kitchen_rating")) := by
  rw [scan_ok_eq, extract_answers_eq]
  rfl

theorem fieldOf_eq_service_rating (r : ScanResult) :
    fieldOf r ("service_rating") = r.service_rating := by
  simp [fieldOf]

theorem scanField_service_rating (fm : List (String × String)) (p t : String)
    (el : Float) :
    ((scan_image ⟨true, fm⟩ p (ScanEnv.ocrText t) el).1).service_rating = extract_rating (answersOf (capsOf fm t) ("service_rating")) := by
  rw [scan_ok_eq, extract_answers_eq]
  rfl

theorem fieldOf_eq_host_rating (r : ScanResult) :
    fieldOf r ("host_rating") = r.host_rating := by
  simp [fieldOf]

theorem scanField_host_rating (fm : List (String × String)) (p t : String)
    (el : Float) :
    ((scan_image ⟨true, fm⟩ p (ScanEnv.ocrText t) el).1).host_rating = extract_rating (answersOf (capsOf fm t) ("host_rating")) := by
  rw [scan_ok_eq, extract_answers_eq]
  rfl

theorem fieldOf_eq_visits_count (r : ScanResult) :
    fieldOf r ("visits_count") = r.visits_count := by
  simp [fieldOf]

theorem scanField_visits_count (fm : List (String × String)) (p t : String)
    (el : Float) :
    ((scan_image ⟨true, fm⟩ p (ScanEnv.ocrText t) el).1).visits_count = answersOf (capsOf fm t) ("visits_count") := by
  rw [scan_ok_eq, extract_answers_eq]
  rfl

theorem fieldOf_eq_ticket_price (r : ScanResult) :
    fieldOf r ("ticket_price") = r.ticket_price := by
  simp [fieldOf]

theorem scanField_ticket_price (fm : List (String × String)) (p t : String)
    (el : Float) :
    ((scan_image ⟨true, fm⟩ p (ScanEnv.ocrText t) el).1).ticket_price = extract_ticket_price (answersOf (capsOf fm t) ("ticket_price")) := by
  rw [scan_ok_eq, extract_answers_eq]
  rfl

theorem fieldOf_eq_know_booking (r : ScanResult) :
    fieldOf r ("know_booking") = r.know_booking := by
  simp [fieldOf]

theorem scanField_know_booking (fm : List (String × String)) (p t : String)
    (el : Float) :
    ((scan_image ⟨true, fm⟩ p (ScanEnv.ocrText t) el).1).know_booking = extract_yes_no (answersOf (capsOf fm t) ("know_booking")) := by
  rw [scan_ok_eq, extract_answers_eq]
  rfl

theorem fieldOf_eq_source_info (r : ScanResult) :
    fieldOf r ("source_info") = r.source_info := by
  simp [fieldOf]

theorem scanField_source_info (fm : List (String × String)) (p t : String)
    (el : Float) :
    ((scan_image ⟨true, fm⟩ p (ScanEnv.ocrText t) el).1).source_info = answersOf (capsOf fm t) ("source_info") := by
  rw [scan_ok_eq, extract_answers_eq]
  rfl

theorem fieldOf_eq_purpose (r : ScanResult) :
    fieldOf r ("purpose") = r.purpose := by
  simp [fieldOf]

theorem scanField_purpose (fm : List (String × String)) (p t : String)
    (el : Float) :
    ((scan_image ⟨true, fm⟩ p (ScanEnv.ocrText t) el).1).purpose = answersOf (capsOf fm t) ("purpose") := by
  rw [scan_ok_eq, extract_answers_eq]
  rfl

theorem fieldOf_eq_improvements (r : ScanResult) :
    fieldOf r ("improvements") = r.improvements := by
  simp [fieldOf]

theorem scanField_improvements (fm : List (String × String)) (p t : String)
    (el : Float) :
    ((scan_image ⟨true, fm⟩ p (ScanEnv.ocrText t) el).1).improvements = answersOf (capsOf fm t) ("improvements") := by
  rw [scan_ok_eq, extract_answers_eq]
  rfl

theorem fieldOf_eq_phone_number (r : ScanResult) :
    fieldOf r ("phone_number") = r.phone_number := by
  simp [fieldOf]

theorem scanField_phone_number (fm : List (String × String)) (p t : String)
    (el : Float) :
    ((scan_image ⟨true, fm⟩ p (ScanEnv.ocrText t) el).1).phone_number = phoneFinal (answersOf (capsOf fm t) ("phone_number")) := by
  rw [scan_ok_eq, extract_answers_eq]
  rfl

/-- A field identifier whose question label never occurs in the text gets
the empty string in the final result, whichever of the 17 members it is. -/
theorem scan_ok_fieldOf (fm : List (String × String)) (p t : String)
    (el : Float) (fid : String) (hfid : fid ∈ field_mapping.map Prod.snd)
    (hA : answersOf (capsOf fm t) fid = "") :
    fieldOf ((scan_image ⟨true, fm⟩ p (ScanEnv.ocrText t) el).1) fid = "" := by
  rw [show field_mapping.map Prod.snd =
    [("date" : String), "table_number", "location", "satisfaction_rating",
     "playlist_rating", "tracks_to_add", "location_rating", "kitchen_rating",
     "service_rating", "host_rating", "visits_count", "ticket_price",
     "know_booking", "source_info", "purpose", "improvements",
     "phone_number"] from rfl] at hfid
  simp only [List.mem_cons, List.not_mem_nil, or_false] at hfid
  rcases hfid with h | h | h | h | h | h | h | h | h | h | h | h | h | h | h | h | h
  · subst h
    rw [fieldOf_eq_date, scanField_date]
    exact hA
  · subst h
    rw [fieldOf_eq_table_number, scanField_table_number]
    exact hA
  · subst h
    rw [fieldOf_eq_location, scanField_location]
    exact hA
  · subst h
    rw [fieldOf_eq_satisfaction_rating, scanField_satisfaction_rating, hA]
    decide
  · subst h
    rw [fieldOf_eq_playlist_rating, scanField_playlist_rating, hA]
    decide
  · subst h
    rw [fieldOf_eq_tracks_to_add, scanField_tracks_to_add]
    exact hA
  · subst h
    rw [fieldOf_eq_location_rating, scanField_location_rating, hA]
    decide
  · subst h
    rw [fieldOf_eq_kitchen_rating, scanField_kitchen_rating, hA]
    decide
  · subst h
    rw [fieldOf_eq_service_rating, scanField_service_rating, hA]
    decide
  · subst h
    rw [fieldOf_eq_host_rating, scanField_host_rating, hA]
    decide
  · subst h
    rw [fieldOf_eq_visits_count, scanField_visits_count]
    exact hA
  · subst h
    rw [fieldOf_eq_ticket_price, scanField_ticket_price, hA]
    decide
  · subst h
    rw [fieldOf_eq_know_booking, scanField_know_booking, hA]
    decide
  · subst h
    rw [fieldOf_eq_source_info, scanField_source_info]
    exact hA
  · subst h
    rw [fieldOf_eq_purpose, scanField_purpose]
    exact hA
  · subst h
    rw [fieldOf_eq_improvements, scanField_improvements]
    exact hA
  · subst h
    rw [fieldOf_eq_phone_number, scanField_phone_number, hA]
    decide

theorem scan_uninit_eq (fm : List (String × String)) (path : String)
    (env : ScanEnv) (el : Float) :
    (scan_image ⟨false, fm⟩ path env el).1 =
      failResult ("Сканер не инициализирован") el := by
  cases env <;> rfl

theorem scan_loadFail_eq (fm : List (String × String)) (path : String)
    (el : Float) :
    (scan_image ⟨true, fm⟩ path ScanEnv.loadFail el).1 =
      failResult ("Не удалось загрузить изображение: " ++ path) el := rfl

theorem scan_throw_eq (fm : List (String × String)) (path m : String)
    (el : Float) :
    (scan_image ⟨true, fm⟩ path (ScanEnv.ocrThrow m) el).1 =
      failResult m el := rfl

/-! ## Claims -/

/-- C1: for every scanner state and every image path, `scan_image` returns
either a success result (`success = true`, all 17 answer members present as
strings with `raw_text` set to the recognized text) or a failure result
(`success = false` with a non-empty `error_message`, assuming external
exception messages are non-empty); no exception escapes the call, and a
label that is merely absent from the OCR text never makes the whole scan
fail — its field is just the empty string. -/
theorem scan_image_total_contract (st : ScannerState) (path : String)
    (env : ScanEnv) (el : Float)
    (hm : ∀ m, env = ScanEnv.ocrThrow m → m ≠ "") :
    ((scan_image st path env el).1.success = true ∨
      ((scan_image st path env el).1.success = false ∧
        (scan_image st path env el).1.error_message ≠ "")) ∧
    (∀ t, st.initFlag = true → env = ScanEnv.ocrText t →
      (scan_image st path env el).1.success = true ∧
      (scan_image st path env el).1.raw_text = t) ∧
    (∀ t q fid, st.initFlag = true → env = ScanEnv.ocrText t →
      st.fmap = field_mapping → (q, fid) ∈ field_mapping →
      (∀ l ∈ cleanedLines t, hasSub l q.data = false) →
      fieldOf ((scan_image st path env el).1) fid = "") := by
  obtain ⟨flag, fm⟩ := st
  refine ⟨?_, ?_, ?_⟩
  · cases flag with
    | false =>
      right
      rw [scan_uninit_eq]
      refine ⟨rfl, ?_⟩
      rw [show (failResult ("Сканер не инициализирован") el).error_message
        = "Сканер не инициализирован" from rfl]
      decide
    | true =>
      cases env with
      | loadFail =>
        right
        rw [scan_loadFail_eq]
        refine ⟨rfl, ?_⟩
        rw [show (failResult ("Не удалось загрузить изображение: " ++ path) el).error_message
          = "Не удалось загрузить изображение: " ++ path from rfl]
        intro hc
        have hd := congrArg String.data hc
        simp [String.append] at hd
      | ocrThrow m =>
        right
        rw [scan_throw_eq]
        exact ⟨rfl, hm m rfl⟩
      | ocrText t =>
        left
        exact scan_ok_success fm path t el
  · intro t hflag henv
    subst henv
    cases flag with
    | false => simp at hflag
    | true => exact ⟨scan_ok_success fm path t el, scan_ok_raw fm path t el⟩
  · intro t q fid hflag henv hfm hmem habs
    subst henv
    cases flag with
    | false => simp at hflag
    | true =>
      have hfm2 : fm = field_mapping := hfm
      subst hfm2
      apply scan_ok_fieldOf
      · exact List.mem_map.mpr ⟨(q, fid), hmem, rfl⟩
      · apply answersOf_of_no_write
        intro c hc heq
        obtain ⟨hmem2, l, hl, hsub⟩ :=
          parseLinesF_mem field_mapping (cleanedLines t).length (cleanedLines t) c hc
        have hq : c.q = q :=
          field_mapping_snd_inj (c.q, c.fid) hmem2 (q, fid) hmem heq
        rw [hq, habs l hl] at hsub
        cases hsub

theorem scan_image_total_contract_witness :
    (scan_image ⟨true, field_mapping⟩ ("img.png") (ScanEnv.ocrText ("abc")) 0).1.success
        = true ∧
      (scan_image ⟨true, field_mapping⟩ ("img.png") (ScanEnv.ocrText ("abc")) 0).1.raw_text
        = "abc" :=
  (scan_image_total_contract ⟨true, field_mapping⟩ ("img.png")
    (ScanEnv.ocrText ("abc")) 0 (fun _ h => ScanEnv.noConfusion h)).2.1
    ("abc") rfl rfl

/-- C2: calling `scan_image` while the scanner is not initialized yields a
failure result — `success = false` with the fixed non-empty Russian message
— rather than a crash or an escaping exception. -/
theorem scan_image_uninitialized (st : ScannerState) (path : String)
    (env : ScanEnv) (el : Float) (h : st.initFlag = false) :
    (scan_image st path env el).1.success = false ∧
      (scan_image st path env el).1.error_message ≠ "" := by
  obtain ⟨flag, fm⟩ := st
  have h2 : flag = false := h
  subst h2
  rw [scan_uninit_eq]
  refine ⟨rfl, ?_⟩
  rw [show (failResult ("Сканер не инициализирован") el).error_message
    = "Сканер не инициализирован" from rfl]
  decide

theorem scan_image_uninitialized_witness :
    (scan_image ⟨false, field_mapping⟩ ("img.png") ScanEnv.loadFail 0).1.success
        = false ∧
      (scan_image ⟨false, field_mapping⟩ ("img.png") ScanEnv.loadFail 0).1.error_message
        ≠ "" :=
  scan_image_uninitialized ⟨false, field_mapping⟩ ("img.png") ScanEnv.loadFail 0 rfl

/-- C3: the form parser matches labels by substring containment over the
(non-empty) lines; a matched label's answer is the first following non-empty
line that does not itself contain any label of the table as a substring, and
the scan index is advanced past that line; on the lines
`["Дата:", "12.05.2024", "Номер столика:", "14"]` it produces
`date = "12.05.2024"` and `table_number = "14"`, date's capture stopping
before the `"Номер столика:"` label line. -/
theorem parse_capture_spec :
    (∀ fm l q fid, findLabel fm l = some (q, fid) →
      (q, fid) ∈ fm ∧ hasSub l q.data = true) ∧
    (∀ fm ls a r2, findAnswer fm ls = some (a, r2) →
      a.isEmpty = false ∧ isQuestion fm a = false ∧
        ∃ pre, ls = pre ++ a :: r2 ∧
          ∀ l ∈ pre, l.isEmpty = true ∨ isQuestion fm l = true) ∧
    (∀ fm f l rest q fid a r2, findLabel fm l = some (q, fid) →
      findAnswer fm rest = some (a, r2) →
      parseLinesF fm (f + 1) (l :: rest) = ⟨q, fid, a⟩ :: parseLinesF fm f r2) ∧
    capsOf field_mapping ("Дата:\n12.05.2024\nНомер столика:\n14") =
      [⟨"Дата:", "date", ("12.05.2024").data⟩,
       ⟨"Номер столика:", "table_number", ("14").data⟩] ∧
    answersOf (capsOf field_mapping ("Дата:\n12.05.2024\nНомер столика:\n14"))
      ("date") = "12.05.2024" ∧
    answersOf (capsOf field_mapping ("Дата:\n12.05.2024\nНомер столика:\n14"))
      ("table_number") = "14" := by
  refine ⟨findLabel_sound, findAnswer_decomp, ?_, by decide, by decide, by decide⟩
  intro fm f l rest q fid a r2 hfl hfa
  rw [parseLinesF, hfl, hfa]

theorem parse_capture_spec_witness :
    (("Дата:", "date") ∈ field_mapping ∧
      hasSub ("Дата:").data ("Дата:").data = true) ∧
    (("14").data.isEmpty = false ∧
      isQuestion field_mapping ("14").data = false ∧
      ∃ pre, [("14").data] = pre ++ ("14").data :: [] ∧
        ∀ l ∈ pre, l.isEmpty = true ∨ isQuestion field_mapping l = true) :=
  ⟨parse_capture_spec.1 field_mapping ("Дата:").data "Дата:" "date" (by decide),
   parse_capture_spec.2.1 field_mapping [("14").data] ("14").data [] (by decide)⟩

/-- C4 (code bug): the intended case-insensitive yes/no matching fails for
Cyrillic input, because byte-wise `std::tolower` cannot lowercase multi-byte
UTF-8 characters: `"Да, конечно"` and `"Нет, не знаю"` are returned
unchanged, while their lowercase versions map to the canonical values. -/
theorem extract_yes_no_case_sensitivity :
    extract_yes_no ("Да, конечно") = "Да, конечно" ∧
    extract_yes_no ("Нет, не знаю") = "Нет, не знаю" ∧
    extract_yes_no ("да, конечно") = "Да" ∧
    extract_yes_no ("нет, не знаю") = "Нет" ∧
    extract_yes_no ("Может быть") = "Может быть" := by decide

/-- C5 counterexample: the input `"47"` contains `"7"` but the rating
normalizer returns the earlier digit `"4"`, not `"7"`. -/
theorem extract_rating_contains7_cex :
    hasSub ("47").data ("7").data = true ∧ extract_rating ("47") = "4" ∧
      extract_rating ("47") ≠ "7" := by decide

/-- C5 amended: rating normalization returns the leftmost match of
`(10|[1-9])` — so an input containing `"7"` yields `"7"` only when no digit
1–9 occurs earlier — and returns the input unchanged when no digit 1–9
occurs at all; in particular `"7 баллов"` yields `"7"`. -/
theorem extract_rating_leftmost :
    (∀ t : String, (∀ c ∈ t.data, isRateDigit c = false) →
      extract_rating t = t) ∧
    (∀ t : String, t.data ≠ [] → (∃ c ∈ t.data, isRateDigit c = true) →
      ∃ pre m suf, t.data = pre ++ m ++ suf ∧
        extract_rating t = String.mk m ∧
        (∀ c ∈ pre, isRateDigit c = false) ∧
        (m = ['1', '0'] ∨ ∃ d, m = [d] ∧ isRateDigit d = true ∧
          ¬(d = '1' ∧ suf.head? = some '0'))) ∧
    extract_rating ("7 баллов") = "7" ∧
    extract_rating ("баллов") = "баллов" := by
  refine ⟨?_, ?_, by decide, by decide⟩
  · intro t hall
    by_cases h0 : t.data = []
    · obtain ⟨d⟩ := t
      have hd : d = [] := h0
      subst hd
      rfl
    · cases hm : ratingSearch t.data with
      | none => exact extract_rating_eq_of_none t h0 hm
      | some m =>
        have hnone := (ratingSearch_none_iff t.data).mpr hall
        rw [hnone] at hm
        cases hm
  · intro t h0 hex
    obtain ⟨c, hc, hdig⟩ := hex
    cases hm : ratingSearch t.data with
    | none =>
      have := (ratingSearch_none_iff t.data).mp hm c hc
      rw [hdig] at this
      cases this
    | some m =>
      obtain ⟨pre, suf, hl, hpre, hshape⟩ := ratingSearch_some_decomp _ _ hm
      exact ⟨pre, m, suf, hl, extract_rating_eq_of_some t m h0 hm, hpre, hshape⟩

theorem extract_rating_leftmost_witness :
    extract_rating ("привет") = "привет" ∧
    (∃ pre m suf, ("a7").data = pre ++ m ++ suf ∧
      extract_rating ("a7") = String.mk m ∧
      (∀ c ∈ pre, isRateDigit c = false) ∧
      (m = ['1', '0'] ∨ ∃ d, m = [d] ∧ isRateDigit d = true ∧
        ¬(d = '1' ∧ suf.head? = some '0'))) :=
  ⟨extract_rating_leftmost.1 ("привет") (by decide),
   extract_rating_leftmost.2.1 ("a7") (by decide) ⟨'7', by decide, by decide⟩⟩

/-- C6: phone processing extracts the leftmost substring matching the
Russian phone pattern and normalizes it to `+7` followed by the digits
(stripping separators, mapping a leading `8` to `+7`, keeping an existing
`+7`); `"8 916 123 45 67"` and `"+7(916)123-45-67"` both yield
`"+79161234567"`, and an input with no match yields the empty string. -/
theorem phone_processing_spec :
    phoneFinal ("8 916 123 45 67") = "+79161234567" ∧
    phoneFinal ("+7(916)123-45-67") = "+79161234567" ∧
    (∀ t : String, phoneSearchL t.data = none → phoneFinal t = "") ∧
    (∀ l m, phoneSearchL l = some m →
      ∃ k, matchPhoneAt (l.drop k) = some m ∧
        ∀ j, j < k → matchPhoneAt (l.drop j) = none) ∧
    (∀ t : String, phoneFinal t = "" ∨ (phoneFinal t).data.take 2 = ['+', '7']) :=
  ⟨by decide, by decide, phoneFinal_of_none, phoneSearchL_leftmost, phoneFinal_shape⟩

theorem phone_processing_spec_witness :
    phoneFinal ("нет") = "" ∧
    (∃ k, matchPhoneAt ((" 8 916 123 45 67").data.drop k)
        = some (("8 916 123 45 67").data) ∧
      ∀ j, j < k → matchPhoneAt ((" 8 916 123 45 67").data.drop j) = none) :=
  ⟨phone_processing_spec.2.2.1 ("нет") (by decide),
   phone_processing_spec.2.2.2.1 (" 8 916 123 45 67").data
     (("8 916 123 45 67").data) (by decide)⟩

/-- C7 (code bug): the intended case-insensitive price-tier matching fails
for Cyrillic input, because byte-wise `std::tolower` cannot lowercase
multi-byte UTF-8 characters: `"Дорого"` and `"Доступно"` are returned
unchanged, while the lowercase phrases map to the canonical tiers. -/
theorem extract_ticket_price_case_sensitivity :
    extract_ticket_price ("Дорого") = "Дорого" ∧
    extract_ticket_price ("дорого") = "дорого" ∧
    extract_ticket_price ("Доступно") = "Доступно" ∧
    extract_ticket_price ("доступно") = "доступно" ∧
    extract_ticket_price ("можно смело ставить дороже")
      = "можно смело ставить дороже" := by decide

/-- C8: each answer normalizer is idempotent — in fact on every input, not
just on its own outputs — and in particular on the canonical outputs
`"Да"`, `"7"`, `"дорого"`, `"+79161234567"`. -/
theorem normalizers_idempotent :
    (∀ t, extract_yes_no (extract_yes_no t) = extract_yes_no t) ∧
    (∀ t, extract_rating (extract_rating t) = extract_rating t) ∧
    (∀ t, extract_ticket_price (extract_ticket_price t) = extract_ticket_price t) ∧
    (∀ t, normalize_phone (normalize_phone t) = normalize_phone t) ∧
    extract_yes_no ("Да") = "Да" ∧
    extract_rating ("7") = "7" ∧
    extract_ticket_price ("дорого") = "дорого" ∧
    normalize_phone ("+79161234567") = "+79161234567" :=
  ⟨extract_yes_no_idem, extract_rating_idem, extract_ticket_price_idem,
   normalize_phone_idem, by decide, by decide, by decide, by decide⟩

set_option maxRecDepth 10000 in
/-- C9 counterexample: 300 copies of the two-byte character `д` encode to
600 bytes; `substr(0, 500)` keeps only the first 500 bytes (250 characters),
whereas first-500-characters truncation would keep the whole text. -/
theorem raw_text_trunc_cex :
    (muzloto_scan_image { emptyResult 0 with
        raw_text := String.mk (List.replicate 300 'д') }).raw_text ≠
      specRawTruncChars (String.mk (List.replicate 300 'д')) := by decide

/-- C9 amended: in the assembled output, `raw_text` is the recognized text
truncated to its first 500 BYTES of UTF-8 (the full text when it encodes to
at most 500 bytes) — which is 500 characters only for ASCII text — alongside
the copied fields array, success flag, error message, and elapsed time. -/
theorem raw_text_trunc_bytes (r : ScanResult) :
    (muzloto_scan_image r).raw_text = (strBytes r.raw_text).take 500 ∧
    (muzloto_scan_image r).raw_text.length = min 500 (strBytes r.raw_text).length ∧
    ((strBytes r.raw_text).length ≤ 500 →
      (muzloto_scan_image r).raw_text = strBytes r.raw_text) ∧
    (muzloto_scan_image r).success = r.success ∧
    (muzloto_scan_image r).error_message = r.error_message ∧
    (muzloto_scan_image r).fields = r.fields ∧
    (muzloto_scan_image r).processing_time_ms = r.processing_time_ms := by
  have h1 : (muzloto_scan_image r).raw_text = (strBytes r.raw_text).take 500 := by
    show cppSubstr (strBytes r.raw_text) 0 500 = _
    rw [cppSubstr, List.drop_zero]
  refine ⟨h1, ?_, ?_, rfl, rfl, rfl, rfl⟩
  · rw [h1, List.length_take]
  · intro hle
    rw [h1]
    exact List.take_of_length_le hle

theorem raw_text_trunc_bytes_witness :
    (muzloto_scan_image { emptyResult 0 with raw_text := "ab" }).raw_text =
      strBytes ("ab") :=
  (raw_text_trunc_bytes { emptyResult 0 with raw_text := "ab" }).2.2.1 (by decide)

/-- C10: `scan_image` never changes the scanner state: the initialized flag
and the label table are identical after the call, so a scanner that was
initialized before a scan accepts further scans afterwards. -/
theorem scan_image_frame (st : ScannerState) (p : String) (env : ScanEnv)
    (el : Float) :
    (scan_image st p env el).2 = st ∧
    (st.initFlag = true → ∀ p2 t el2,
      ((scan_image (scan_image st p env el).2 p2
        (ScanEnv.ocrText t) el2).1).success = true) := by
  refine ⟨rfl, ?_⟩
  intro h p2 t el2
  obtain ⟨flag, fm⟩ := st
  cases flag with
  | false => simp at h
  | true => exact scan_ok_success fm p2 t el2

theorem scan_image_frame_witness :
    (scan_image ⟨true, field_mapping⟩ ("a.png") ScanEnv.loadFail 0).2 =
      (⟨true, field_mapping⟩ : ScannerState) ∧
    ((scan_image (scan_image ⟨true, field_mapping⟩ ("a.png") ScanEnv.loadFail 0).2
        ("b.png") (ScanEnv.ocrText ("x")) 0).1).success = true :=
  ⟨(scan_image_frame ⟨true, field_mapping⟩ ("a.png") ScanEnv.loadFail 0).1,
   (scan_image_frame ⟨true, field_mapping⟩ ("a.png") ScanEnv.loadFail 0).2
     rfl ("b.png") ("x") 0⟩

end Muzloto
